import Mathlib

/-!
Shallow embedding of the resolution engine of the Argos product scraper
(src/argos_scraper.py): URL validation and candidate collection, the
visited-URL registry, the adaptive rate controller, per-channel blocked
state with cooldowns, the persistence layer, and the batch driver's
decision logic, together with theorems settling the specification's
claims about them.

Timestamps are modelled as integers (epoch seconds); delays as rationals.
External effects (search results, HTTP status codes, page bodies, the
uniform random draw) are passed in as explicit oracle arguments.
-/

namespace ArgosScraper

/-! ## Configuration constants (CONFIG in the source) -/

def min_delay : ℚ := 5

def max_delay : ℚ := 10

def argos_search_delay : ℚ := 3

def block_cooldown : ℤ := 1800

def exponential_backoff_base : ℚ := 2

def max_backoff_delay : ℚ := 300

def search_backends : List String := ["google", "mullvad_google", "yahoo", "yandex"]

def exclude_patterns : List String := ["/search/", "/browse/", "/category/", "/c:", "/static/"]

/-! ## Small executable set / dict primitives (python sets and dicts) -/

/-- Boolean membership test on a list of strings (python `in`). -/
def memb (s : List String) (u : String) : Bool :=
  match s with
  | [] => false
  | x :: t => if x = u then true else memb t u

/-- python `set.add`: insert if absent. -/
def insertSet (s : List String) (u : String) : List String :=
  if memb s u then s else s ++ [u]

/-- Association-list lookup (python dict read / `in` test). -/
def alookup {α : Type} (d : List (String × α)) (k : String) : Option α :=
  match d with
  | [] => none
  | (k2, v) :: t => if k2 = k then some v else alookup t k

/-- Association-list key update (python dict assignment). -/
def aset {α : Type} (d : List (String × α)) (k : String) (v : α) : List (String × α) :=
  match d with
  | [] => [(k, v)]
  | (k2, v2) :: t => if k2 = k then (k, v) :: t else (k2, v2) :: aset t k v

/-! ## URL validation (is_valid_product_url, lines 195-209) -/

/-- Does the first list occur at the head of the second one? -/
def leadsWith : List Char → List Char → Bool
  | [], _ => true
  | _ :: _, [] => false
  | a :: as, b :: bs => if a = b then leadsWith as bs else false

/-- Substring occurrence (python `in` on strings). -/
def containsSub (needle : List Char) : List Char → Bool
  | [] => leadsWith needle []
  | c :: t => leadsWith needle (c :: t) || containsSub needle t

/-- Character class `[a-zA-Z0-9-]` of the second URL pattern. -/
def isSlugChar (c : Char) : Bool := c.isAlpha || c.isDigit || c == '-'

/-- A match of the regex `/product/\d+` starting at the current position:
the literal `/product/` followed by at least one digit. -/
def pat1At (cs : List Char) : Bool :=
  leadsWith ("/product/".toList) cs &&
    (match cs.drop 9 with
     | d :: _ => d.isDigit
     | [] => false)

/-- Search of the pattern `/product/\d+` at every position, as re.search
does: true iff the pattern matches somewhere. -/
def searchPat1 : List Char → Bool
  | [] => false
  | c :: t => pat1At (c :: t) || searchPat1 t

/-- After at least one slug character: continue the slug run until a `/`
that must be followed by a digit (tail of `/product/[a-zA-Z0-9-]+/\d+`). -/
def slugRest : List Char → Bool
  | [] => false
  | c :: t =>
    if c = '/' then
      match t with
      | d :: _ => d.isDigit
      | [] => false
    else isSlugChar c && slugRest t

/-- A match of `/product/[a-zA-Z0-9-]+/\d+` starting at this position. -/
def pat2At (cs : List Char) : Bool :=
  leadsWith ("/product/".toList) cs &&
    (match cs.drop 9 with
     | c :: t => isSlugChar c && slugRest t
     | [] => false)

/-- Search of the pattern `/product/[a-zA-Z0-9-]+/\d+` at every position. -/
def searchPat2 : List Char → Bool
  | [] => false
  | c :: t => pat2At (c :: t) || searchPat2 t

/-- is_valid_product_url: reject non-Argos URLs; accept on either valid
product pattern; then scan the exclusion list (note that, as in the
source, every path after the pattern scan returns false). -/
def is_valid_product_url (url : String) : Bool :=
  if url == "" || !containsSub ("argos.co.uk".toList) url.toList then false
  else if searchPat1 url.toList || searchPat2 url.toList then true
  else if exclude_patterns.any (fun p => containsSub p.toList url.toList) then false
  else false

/-- Tracking-parameter stripping in search_with_ddgs (url.split at the
first question mark, keeping the head). -/
def cleanUrl (url : String) : String :=
  if containsSub ['?'] url.toList then
    String.mk (url.toList.takeWhile (fun c => !(c == '?')))
  else url

/-- Candidate collection of search_with_ddgs (lines 252-262): clean each
result URL, keep the valid ones, drop duplicates, preserve order. -/
def collectArgosUrls (acc : List String) : List String → List String
  | [] => acc
  | r :: rest =>
    let u := cleanUrl r
    if is_valid_product_url u && !memb acc u then collectArgosUrls (acc ++ [u]) rest
    else collectArgosUrls acc rest

/-! ## Visited-URL registry (lines 211-217) -/

def has_url_been_accessed (acc : List String) (url : String) : Bool := memb acc url

def mark_url_accessed (acc : List String) (url : String) : List String := insertSet acc url

/-! ## Rate controller (adaptive_delay, lines 158-193) -/

/-- The delay computed by adaptive_delay before jitter and the
last-request-time adjustment.  `failures` is the BACKEND_FAILURES entry
for the backend (`none` when the backend is absent from the dict or no
backend was given); `r` is the uniform draw from `[min_delay, max_delay]`
used when no entry exists. -/
def adaptiveDelayCore (isBlocked isArgos : Bool) (failures : Option ℕ) (r : ℚ) : ℚ :=
  if isBlocked then ((block_cooldown : ℤ) : ℚ)
  else if isArgos then argos_search_delay
  else
    match failures with
    | some k => min (min_delay * exponential_backoff_base ^ k) max_backoff_delay
    | none => r

/-- The delay policy exactly as the claim states it: the backoff branch is
taken only when the consecutive-failure count is nonzero; a zero count
falls through to the uniform draw. -/
def adaptiveDelayClaimed (isBlocked isArgos : Bool) (failures : Option ℕ) (r : ℚ) : ℚ :=
  if isBlocked then ((block_cooldown : ℤ) : ℚ)
  else if isArgos then argos_search_delay
  else
    match failures with
    | some (k + 1) => min (min_delay * exponential_backoff_base ^ (k + 1)) max_backoff_delay
    | _ => r

/-- The amended policy: the backoff branch is taken whenever the channel
has a recorded consecutive-failure count, even a count of zero (as left
behind by a success reset); only a channel with no recorded count gets
the uniform random delay. -/
def adaptiveDelayAmended (isBlocked isArgos : Bool) (failures : Option ℕ) (r : ℚ) : ℚ :=
  if isBlocked then ((block_cooldown : ℤ) : ℚ)
  else if isArgos then argos_search_delay
  else
    match failures with
    | some k => min (min_delay * exponential_backoff_base ^ k) max_backoff_delay
    | none => r

/-- BACKEND_FAILURES entry update on a rate-limit error (line 299). -/
def incFailures (o : Option ℕ) : Option ℕ := some (o.getD 0 + 1)

/-- The BACKEND_FAILURES entry after exactly k recorded failures with no
intervening success, starting from no entry. -/
def failuresAfter : ℕ → Option ℕ
  | 0 => none
  | k + 1 => incFailures (failuresAfter k)

/-- The rate controller's search delay for a channel that has seen exactly
k consecutive failures, with uniform draw `r`. -/
def delayFor (k : ℕ) (r : ℚ) : ℚ := adaptiveDelayCore false false (failuresAfter k) r

/-! ## Channel blocked state and available channels
(find_product_url_enhanced, lines 419-440) -/

/-- The search_blocked dict: a blocked flag per backend plus the optional
nested last_block_time map. -/
structure SearchBlocked where
  flags : List (String × Bool)
  lastBlockTime : Option (List (String × ℤ))
  deriving DecidableEq

/-- One iteration of the availability loop: an unblocked backend is
included; a blocked backend with an elapsed cooldown is unblocked and
included; anything else is excluded. -/
def availStep (now : ℤ) (p : SearchBlocked × List String) (b : String) :
    SearchBlocked × List String :=
  if alookup p.1.flags b = some true then
    match p.1.lastBlockTime with
    | some times =>
      match alookup times b with
      | some t =>
        if block_cooldown ≤ now - t then
          ({ flags := aset p.1.flags b false, lastBlockTime := p.1.lastBlockTime }, p.2 ++ [b])
        else p
      | none => p
    | none => p
  else (p.1, p.2 ++ [b])

/-- The availability loop over a list of backends. -/
def availGo (now : ℤ) : SearchBlocked × List String → List String → SearchBlocked × List String
  | p, [] => p
  | p, b :: rest => availGo now (availStep now p b) rest

/-- available_backends computation over the configured backends, with its
side effect on the blocked flags. -/
def available_channels (now : ℤ) (sb : SearchBlocked) : SearchBlocked × List String :=
  availGo now (sb, []) search_backends

/-- Recording a rate-limit block (lines 451-454): set the flag, create the
last_block_time map if needed, record the time. -/
def recordBlock (sb : SearchBlocked) (b : String) (now : ℤ) : SearchBlocked :=
  { flags := aset sb.flags b true
    lastBlockTime := some (aset (sb.lastBlockTime.getD []) b now) }

/-- Outcome of one search_with_ddgs call, as seen by the resolver:
a url with success, no url with success, or a rate-limit failure. -/
inductive SearchOutcome
  | found (url : String)
  | empty
  | rateLimited
  deriving DecidableEq

/-- The EAN loop of find_product_url_enhanced (lines 442-466): walk the
available backends in order; a rate-limited backend is recorded blocked
and the next one is tried; any completed search (with or without a url)
returns immediately.  The third component lists the backends queried. -/
def tryBackends (f : String → SearchOutcome) (now : ℤ) :
    SearchBlocked → List String → Option String × SearchBlocked × List String
  | sb, [] => (none, sb, [])
  | sb, b :: rest =>
    match f b with
    | .rateLimited =>
      match tryBackends f now (recordBlock sb b now) rest with
      | (u, sb2, q) => (u, sb2, b :: q)
    | .found u => (some u, sb, [b])
    | .empty => (none, sb, [b])

/-! ## Batch driver decision logic (main, lines 792-861) -/

/-- The all_blocked test of main (lines 836-837): every configured backend
has its blocked flag set, absent entries counting as unblocked. -/
def all_blocked (sb : SearchBlocked) : Bool :=
  search_backends.all (fun b => (alookup sb.flags b).getD false)

/-- One step of the minimum-wait computation (lines 843-849): a backend
without a recorded block time contributes nothing; otherwise its positive
remaining cooldown replaces the accumulator when smaller (`none` is the
initial infinity, which every positive remainder beats). -/
def minWaitStep (now : ℤ) : Option ℤ → Option ℤ → Option ℤ
  | acc, none => acc
  | none, some t =>
    if 0 < block_cooldown - (now - t) then some (block_cooldown - (now - t)) else none
  | some m, some t =>
    if 0 < block_cooldown - (now - t) ∧ block_cooldown - (now - t) < m then
      some (block_cooldown - (now - t))
    else some m

/-- The minimum-wait loop over a list of backends. -/
def minWaitAux (now : ℤ) (times : List (String × ℤ)) : Option ℤ → List String → Option ℤ
  | acc, [] => acc
  | acc, b :: rest => minWaitAux now times (minWaitStep now acc (alookup times b)) rest

/-- min_wait_time over the configured backends; `none` stands for the
initial infinity. -/
def minWait (sb : SearchBlocked) (now : ℤ) : Option ℤ :=
  minWaitAux now (sb.lastBlockTime.getD []) none search_backends

/-- What the batch loop does with an identifier: terminate early, skip the
identifier, or record it as not found. -/
inductive BatchAction
  | halt
  | skipId
  | exhaust
  deriving DecidableEq

/-- The two lookup kinds (EAN code vs model number). -/
inductive LookupKind
  | code
  | model
  deriving DecidableEq

/-- The no-URL handling in main (lines 833-861): for CodeLookup under
global exhaustion, break when the minimum remaining cooldown exceeds 300
seconds, otherwise skip the identifier; in every other case the
identifier is recorded not found. -/
def handleNoUrl (kind : LookupKind) (sb : SearchBlocked) (now : ℤ) : BatchAction :=
  match kind with
  | .code =>
    if all_blocked sb then
      match minWait sb now with
      | some w => if 300 < w then .halt else .skipId
      | none => .skipId
    else .exhaust
  | .model => .exhaust

/-- Effect of a batch action on the not-found set. -/
def updateNotFound (a : BatchAction) (nf : List String) (pid : String) : List String :=
  match a with
  | .exhaust => insertSet nf pid
  | _ => nf

/-- The skip filter of main (lines 792-804): identifiers already
successful are skipped unless the re-scrape override is set; identifiers
already recorded not found are skipped. -/
def filterProducts (succ nf : List String) (rescrape : Bool) :
    List (String × LookupKind) → List (String × LookupKind)
  | [] => []
  | (pid, k) :: rest =>
    if memb succ pid && !rescrape then filterProducts succ nf rescrape rest
    else if memb nf pid then filterProducts succ nf rescrape rest
    else (pid, k) :: filterProducts succ nf rescrape rest

/-! ## Existence check, page fetch, scrape (lines 311-337, 596-624, 693-717) -/

/-- check_product_exists: mark the URL visited first, then classify by the
HEAD status (and GET status on ambiguous codes); a network error is
treated optimistically.  `stat` gives (head, get) statuses, `none` for an
exception. -/
def check_product_exists (stat : String → Option (ℕ × ℕ)) (acc : List String) (url : String) :
    Bool × List String :=
  let acc2 := mark_url_accessed acc url
  match stat url with
  | none => (true, acc2)
  | some (h, g) =>
    (if h = 404 then false
     else if h = 200 then true
     else if g = 404 then false
     else g == 200, acc2)

/-- The candidate walk of search_with_ddgs (lines 264-287): skip visited
candidates, run the existence check on the rest, return the first live
one. -/
def checkUrls (stat : String → Option (ℕ × ℕ)) :
    List String → List String → Option String × List String
  | acc, [] => (none, acc)
  | acc, u :: rest =>
    if has_url_been_accessed acc u then checkUrls stat acc rest
    else
      match check_product_exists stat acc u with
      | (ok, acc2) => if ok then (some u, acc2) else checkUrls stat acc2 rest

/-- fetch_page_content: a visited URL is skipped with no content;
otherwise it is marked visited and fetched (`web` is the page body
oracle, `none` for an unrecoverable request failure). -/
def fetch_page_content (web : String → Option String) (acc : List String) (url : String) :
    Option String × List String :=
  if has_url_been_accessed acc url then (none, acc)
  else (web url, mark_url_accessed acc url)

/-- scrape_product truthiness: no page content means a falsy result;
otherwise the extraction and save outcomes decide. -/
def scrape_product (web : String → Option String) (extractOk saveOk : Bool)
    (acc : List String) (url : String) : Bool × List String :=
  match fetch_page_content web acc url with
  | (none, acc2) => (false, acc2)
  | (some _, acc2) => (extractOk && saveOk, acc2)

/-- main's accounting after a scrape attempt (lines 868-872): a truthy
scrape adds the identifier to the successful set, a falsy one only bumps
the failure counter. -/
def mainAccounting (ok : Bool) (pid : String) (succ nf : List String) (failed : ℕ) :
    List String × List String × ℕ :=
  if ok then (insertSet succ pid, nf, failed) else (succ, nf, failed + 1)

/-! ## Persistence (lines 491-570) -/

/-- The in-memory state the persistence layer covers. -/
structure RunState where
  successful : List String
  notFound : List String
  blocked : SearchBlocked
  accessed : List String
  deriving DecidableEq

/-- The four on-disk artifacts; `none` models a missing file. -/
structure Persisted where
  successFile : Option (List String)
  notFoundFile : Option (List String)
  blockedFile : Option SearchBlocked
  accessedFile : Option (List String)
  deriving DecidableEq

/-- save_persistent_data: write all four artifacts. -/
def save_persistent_data (st : RunState) : Persisted :=
  { successFile := some st.successful
    notFoundFile := some st.notFound
    blockedFile := some st.blocked
    accessedFile := some st.accessed }

/-- The initial blocked-flag dict: every configured backend unblocked. -/
def initFlags : List (String × Bool) := search_backends.map (fun b => (b, false))

/-- The key-filtered overwrite loop of the blocked-status load (lines
524-527): only keys already present in the initial dict are taken over. -/
def loadFlags : List (String × Bool) → List (String × Bool) → List (String × Bool)
  | fl, [] => fl
  | fl, kv :: rest =>
    loadFlags (if (alookup initFlags kv.1).isSome then aset fl kv.1 kv.2 else fl) rest

/-- Loading the blocked-status file: missing file degrades to the initial
state; otherwise backend flags overwrite the initial dict and the nested
last_block_time map is taken over. -/
def loadBlocked (raw : Option SearchBlocked) : SearchBlocked :=
  match raw with
  | none => { flags := initFlags, lastBlockTime := none }
  | some sb => { flags := loadFlags initFlags sb.flags, lastBlockTime := sb.lastBlockTime }

/-- load_persistent_data: each artifact degrades to empty when missing. -/
def load_persistent_data (p : Persisted) : RunState :=
  { successful := p.successFile.getD []
    notFound := p.notFoundFile.getD []
    blocked := loadBlocked p.blockedFile
    accessed := p.accessedFile.getD [] }

/-! ## Concrete states used by the closed instantiations below -/

/-- A blocked-state with one blocked backend whose cooldown has elapsed. -/
def wSb5 : SearchBlocked :=
  { flags := [("google", false), ("mullvad_google", false), ("yahoo", true), ("yandex", false)]
    lastBlockTime := some [("yahoo", 0)] }

/-- A search oracle: one rate-limited backend, the rest conclusively empty. -/
def wF6 : String → SearchOutcome := fun c => if c = "google" then .rateLimited else .empty

/-- The freshly initialised blocked-state. -/
def wSb6 : SearchBlocked := { flags := initFlags, lastBlockTime := none }

/-- A blocked-state with every backend blocked and timestamped. -/
def wSb7 : SearchBlocked :=
  { flags := [("google", true), ("mullvad_google", true), ("yahoo", true), ("yandex", true)]
    lastBlockTime := some [("google", 0), ("mullvad_google", 50), ("yahoo", 100), ("yandex", 150)] }

/-- A small complete run state. -/
def wSt9 : RunState :=
  { successful := ["5028965808078"]
    notFound := ["0622356316101"]
    blocked := wSb7
    accessed := ["https://www.argos.co.uk/product/111"] }

/-! ## Basic lemmas about the set and dict primitives -/

theorem memb_iff_mem (s : List String) (u : String) : memb s u = true ↔ u ∈ s := by
  induction s with
  | nil => simp [memb]
  | cons x t ih =>
    rw [memb]
    by_cases hx : x = u
    · subst hx; simp
    · rw [if_neg hx, ih]
      simp only [List.mem_cons]
      constructor
      · exact fun h => Or.inr h
      · rintro (h | h)
        · exact absurd h.symm hx
        · exact h

theorem memb_append (s t : List String) (u : String) :
    memb (s ++ t) u = (memb s u || memb t u) := by
  induction s with
  | nil => simp [memb]
  | cons x s2 ih =>
    by_cases hx : x = u
    · simp [memb, hx]
    · simp [memb, hx, ih]

theorem memb_insertSet_self (s : List String) (u : String) : memb (insertSet s u) u = true := by
  rw [insertSet]
  by_cases h : memb s u = true
  · rw [if_pos h]; exact h
  · rw [if_neg h, memb_append]
    have : memb [u] u = true := by simp [memb]
    simp [this]

theorem memb_insertSet_of_memb (s : List String) (u v : String) (h : memb s u = true) :
    memb (insertSet s v) u = true := by
  rw [insertSet]
  by_cases hv : memb s v = true
  · rw [if_pos hv]; exact h
  · rw [if_neg hv, memb_append, h]; rfl

theorem memb_foldl_mark (u : String) :
    ∀ (l acc : List String), memb acc u = true →
      memb (l.foldl mark_url_accessed acc) u = true
  | [], _, h => h
  | x :: t, acc, h =>
    memb_foldl_mark u t (mark_url_accessed acc x) (memb_insertSet_of_memb acc u x h)

theorem alookup_aset_self {α : Type} (d : List (String × α)) (k : String) (v : α) :
    alookup (aset d k v) k = some v := by
  induction d with
  | nil => simp [aset, alookup]
  | cons kv t ih =>
    obtain ⟨k2, v2⟩ := kv
    by_cases h : k2 = k
    · simp [aset, alookup, h]
    · simp [aset, alookup, h, ih]

theorem alookup_aset_ne {α : Type} (d : List (String × α)) (k b : String) (v : α)
    (h : k ≠ b) : alookup (aset d k v) b = alookup d b := by
  induction d with
  | nil => simp [aset, alookup, h]
  | cons kv t ih =>
    obtain ⟨k2, v2⟩ := kv
    by_cases h2 : k2 = k
    · subst h2; simp [aset, alookup, h]
    · simp [aset, alookup, h2, ih]

theorem alookup_eq_none {α : Type} (d : List (String × α)) (b : String)
    (h : b ∉ d.map Prod.fst) : alookup d b = none := by
  induction d with
  | nil => rfl
  | cons kv t ih =>
    obtain ⟨k2, v2⟩ := kv
    simp only [List.map_cons, List.mem_cons] at h
    push_neg at h
    have hk : k2 ≠ b := fun he => h.1 he.symm
    simp [alookup, hk, ih h.2]

/-! ## Claim theorems -/

/-- Claim C1: once mark_url_accessed u has run, has_url_been_accessed u
stays true across any further sequence of marks, and membership survives
saving the registry and reloading the persisted artifacts. -/
theorem claim_C1 (acc : List String) (u : String) (later s n : List String)
    (sb : SearchBlocked) :
    has_url_been_accessed (later.foldl mark_url_accessed (mark_url_accessed acc u)) u = true ∧
    has_url_been_accessed
      (load_persistent_data (save_persistent_data
        { successful := s, notFound := n, blocked := sb
          accessed := later.foldl mark_url_accessed (mark_url_accessed acc u) })).accessed
      u = true := by
  have h : memb (later.foldl mark_url_accessed (mark_url_accessed acc u)) u = true :=
    memb_foldl_mark u later (mark_url_accessed acc u) (memb_insertSet_self acc u)
  exact ⟨h, h⟩

/-- Claim C4, counterexample: with a recorded consecutive-failure count of
zero (as left behind by a success reset) and a uniform draw of 7, the code
computes the capped backoff min_delay * base ^ 0 = 5 while the claimed
policy returns the draw 7. -/
theorem claim_C4_cex :
    adaptiveDelayCore false false (some 0) 7 = 5 ∧
    adaptiveDelayClaimed false false (some 0) 7 = 7 ∧
    min_delay ≤ (7 : ℚ) ∧ (7 : ℚ) ≤ max_delay ∧
    adaptiveDelayCore false false (some 0) 7 ≠ adaptiveDelayClaimed false false (some 0) 7 := by
  refine ⟨?_, rfl, by norm_num [min_delay], by norm_num [max_delay], ?_⟩
  · show min (min_delay * exponential_backoff_base ^ 0) max_backoff_delay = 5
    norm_num [min_delay, exponential_backoff_base, max_backoff_delay]
  · show min (min_delay * exponential_backoff_base ^ 0) max_backoff_delay ≠ 7
    norm_num [min_delay, exponential_backoff_base, max_backoff_delay]

/-- Claim C4, amended: the blocked cooldown and direct-channel branches are
as claimed, but the exponential-backoff branch is taken whenever the
channel has a recorded consecutive-failure count, even a count of zero;
only a channel with no recorded count receives the uniform random delay. -/
theorem claim_C4 (isBlocked isArgos : Bool) (failures : Option ℕ) (r : ℚ) :
    adaptiveDelayCore isBlocked isArgos failures r =
      adaptiveDelayAmended isBlocked isArgos failures r := rfl

/-- Claim C8, counterexample: with the re-scrape override set, an
identifier in the exhausted (not-found) set is still skipped by the batch
filter, so the override does not cause it to be re-resolved. -/
theorem claim_C8_cex :
    memb ["X"] "X" = true ∧
    filterProducts [] ["X"] true [("X", LookupKind.code)] = [] := by
  exact ⟨rfl, rfl⟩

/-- Claim C8, amended: an identifier in the resolved set is skipped unless
the re-scrape override is set; an identifier in the exhausted set is
always skipped, override or not; every other identifier is processed. -/
theorem claim_C8 (succ nf : List String) (rescrape : Bool)
    (ps : List (String × LookupKind)) (pid : String) (k : LookupKind) :
    (pid, k) ∈ filterProducts succ nf rescrape ps ↔
      ((pid, k) ∈ ps ∧ (memb succ pid && !rescrape) = false ∧ memb nf pid = false) := by
  induction ps with
  | nil => simp [filterProducts]
  | cons hd rest ih =>
    obtain ⟨q, kk⟩ := hd
    rw [filterProducts]
    by_cases h1 : (memb succ q && !rescrape) = true
    · rw [if_pos h1, ih]
      simp only [List.mem_cons]
      constructor
      · rintro ⟨hm, hc1, hc2⟩
        exact ⟨Or.inr hm, hc1, hc2⟩
      · rintro ⟨he | hm2, hc1, hc2⟩
        · injection he with he1 he2
          subst he1
          rw [h1] at hc1; cases hc1
        · exact ⟨hm2, hc1, hc2⟩
    · rw [if_neg h1]
      by_cases h2 : memb nf q = true
      · rw [if_pos h2, ih]
        simp only [List.mem_cons]
        constructor
        · rintro ⟨hm, hc1, hc2⟩
          exact ⟨Or.inr hm, hc1, hc2⟩
        · rintro ⟨he | hm2, hc1, hc2⟩
          · injection he with he1 he2
            subst he1
            rw [h2] at hc2; cases hc2
          · exact ⟨hm2, hc1, hc2⟩
      · rw [if_neg h2]
        simp only [List.mem_cons, ih]
        constructor
        · rintro (he | ⟨hm2, hc1, hc2⟩)
          · injection he with he1 he2
            subst he1; subst he2
            exact ⟨Or.inl rfl, Bool.eq_false_iff.mpr h1, Bool.eq_false_iff.mpr h2⟩
          · exact ⟨Or.inr hm2, hc1, hc2⟩
        · rintro ⟨he | hm2, hc1, hc2⟩
          · exact Or.inl he
          · exact Or.inr ⟨hm2, hc1, hc2⟩

/-! ## Backoff lemmas (claim C10) -/

theorem failuresAfter_succ : ∀ k : ℕ, failuresAfter (k + 1) = some (k + 1)
  | 0 => rfl
  | k + 1 => by
    rw [failuresAfter, failuresAfter_succ k]
    rfl

theorem delayFor_zero (r : ℚ) : delayFor 0 r = r := rfl

theorem delayFor_succ (k : ℕ) (r : ℚ) :
    delayFor (k + 1) r =
      min (min_delay * exponential_backoff_base ^ (k + 1)) max_backoff_delay := by
  rw [delayFor, failuresAfter_succ]
  rfl

theorem two_le_backoff_pow (k : ℕ) : (2 : ℚ) ≤ exponential_backoff_base ^ (k + 1) := by
  rw [exponential_backoff_base]
  calc (2 : ℚ) = 2 ^ 1 := by norm_num
    _ ≤ 2 ^ (k + 1) := by
        apply pow_le_pow_right₀ (by norm_num)
        omega

/-- Claim C10: with the uniform draw held fixed, the delay the rate
controller computes after exactly k consecutive recorded failures is
non-decreasing in k and never exceeds the configured maximum backoff. -/
theorem claim_C10 (k k2 : ℕ) (r : ℚ) (h1 : min_delay ≤ r) (h2 : r ≤ max_delay)
    (hk : k ≤ k2) :
    delayFor k r ≤ delayFor k2 r ∧ delayFor k r ≤ max_backoff_delay := by
  have hbound : ∀ j : ℕ, delayFor j r ≤ max_backoff_delay := by
    intro j
    cases j with
    | zero =>
      rw [delayFor_zero]
      rw [max_delay] at h2
      rw [max_backoff_delay]
      linarith
    | succ i =>
      rw [delayFor_succ]
      exact min_le_right _ _
  refine ⟨?_, hbound k⟩
  cases k with
  | zero =>
    cases k2 with
    | zero => exact le_rfl
    | succ j =>
      rw [delayFor_zero, delayFor_succ]
      apply le_min
      · calc r ≤ max_delay := h2
          _ ≤ min_delay * exponential_backoff_base ^ (j + 1) := by
              have h3 := two_le_backoff_pow j
              rw [max_delay, min_delay]
              linarith
      · rw [max_delay] at h2
        rw [max_backoff_delay]
        linarith
  | succ i =>
    cases k2 with
    | zero => omega
    | succ j =>
      rw [delayFor_succ, delayFor_succ]
      apply min_le_min _ le_rfl
      apply mul_le_mul_of_nonneg_left _ (by rw [min_delay]; norm_num)
      apply pow_le_pow_right₀ (by rw [exponential_backoff_base]; norm_num)
      omega

/-- Claim C10, closed instantiation at k = 0 ≤ 3 with draw 6. -/
theorem claim_C10_witness :
    min_delay ≤ (6 : ℚ) ∧ (6 : ℚ) ≤ max_delay ∧ (0 : ℕ) ≤ 3 ∧
    (delayFor 0 6 ≤ delayFor 3 6 ∧ delayFor 0 6 ≤ max_backoff_delay) :=
  ⟨by norm_num [min_delay], by norm_num [max_delay], by norm_num,
   claim_C10 0 3 6 (by norm_num [min_delay]) (by norm_num [max_delay]) (by norm_num)⟩

/-! ## Candidate-walk lemmas (claim C2) -/

theorem check_product_exists_snd (stat : String → Option (ℕ × ℕ)) (acc : List String)
    (url : String) :
    (check_product_exists stat acc url).2 = mark_url_accessed acc url := by
  rw [check_product_exists]
  cases stat url with
  | none => rfl
  | some p =>
    obtain ⟨h, g⟩ := p
    rfl

theorem checkUrls_marks (stat : String → Option (ℕ × ℕ)) :
    ∀ (l acc : List String) (u : String) (acc2 : List String),
      checkUrls stat acc l = (some u, acc2) → memb acc2 u = true := by
  intro l
  induction l with
  | nil =>
    intro acc u acc2 h
    rw [checkUrls] at h
    cases h
  | cons x rest ih =>
    intro acc u acc2 h
    rw [checkUrls] at h
    by_cases hv : has_url_been_accessed acc x = true
    · rw [if_pos hv] at h
      exact ih acc u acc2 h
    · rw [if_neg hv] at h
      rcases hce : check_product_exists stat acc x with ⟨ok, a2⟩
      have ha2 : a2 = mark_url_accessed acc x := by
        have h0 := check_product_exists_snd stat acc x
        rw [hce] at h0
        exact h0
      cases ok with
      | true =>
        simp [hce] at h
        obtain ⟨hu2, hacc⟩ := h
        subst hu2
        subst hacc
        rw [ha2]
        exact memb_insertSet_self acc x
      | false =>
        simp [hce] at h
        exact ih a2 u acc2 h

/-- Claim C2: whenever the candidate walk of the EAN search returns a
product URL, that URL is already in the visited registry, so the page
fetch inside scrape_product skips it and returns no content,
scrape_product is falsy, and the batch accounting counts the identifier as
failed without touching the resolved or exhausted sets. -/
theorem claim_C2 (stat : String → Option (ℕ × ℕ)) (web : String → Option String)
    (extractOk saveOk : Bool) (acc urls : List String) (u : String) (acc2 : List String)
    (pid : String) (succ nf : List String) (failed : ℕ)
    (h : checkUrls stat acc urls = (some u, acc2)) :
    has_url_been_accessed acc2 u = true ∧
    fetch_page_content web acc2 u = (none, acc2) ∧
    scrape_product web extractOk saveOk acc2 u = (false, acc2) ∧
    mainAccounting (scrape_product web extractOk saveOk acc2 u).1 pid succ nf failed =
      (succ, nf, failed + 1) := by
  have h1 : memb acc2 u = true := checkUrls_marks stat urls acc u acc2 h
  have h2 : fetch_page_content web acc2 u = (none, acc2) := by
    rw [fetch_page_content, if_pos (show has_url_been_accessed acc2 u = true from h1)]
  have h3 : scrape_product web extractOk saveOk acc2 u = (false, acc2) := by
    rw [scrape_product, h2]
  refine ⟨h1, h2, h3, ?_⟩
  rw [h3]
  rfl

/-- Claim C2, closed instantiation: a live candidate found by the search
walk is skipped by the subsequent page fetch and counted as failed. -/
theorem claim_C2_witness :
    checkUrls (fun _ => some (200, 200)) [] ["https://www.argos.co.uk/product/123"] =
      (some "https://www.argos.co.uk/product/123", ["https://www.argos.co.uk/product/123"]) ∧
    (has_url_been_accessed ["https://www.argos.co.uk/product/123"]
        "https://www.argos.co.uk/product/123" = true ∧
     fetch_page_content (fun _ => some "page") ["https://www.argos.co.uk/product/123"]
        "https://www.argos.co.uk/product/123" =
          (none, ["https://www.argos.co.uk/product/123"]) ∧
     scrape_product (fun _ => some "page") true true ["https://www.argos.co.uk/product/123"]
        "https://www.argos.co.uk/product/123" =
          (false, ["https://www.argos.co.uk/product/123"]) ∧
     mainAccounting
        (scrape_product (fun _ => some "page") true true
          ["https://www.argos.co.uk/product/123"] "https://www.argos.co.uk/product/123").1
        "5028965808078" [] [] 0 = ([], [], 1)) :=
  ⟨by decide,
   claim_C2 (fun _ => some (200, 200)) (fun _ => some "page") true true []
     ["https://www.argos.co.uk/product/123"] "https://www.argos.co.uk/product/123"
     ["https://www.argos.co.uk/product/123"] "5028965808078" [] [] 0 (by decide)⟩

/-! ## Candidate-collection lemmas (claim C3) -/

theorem valid_implies_pattern (u : String) (h : is_valid_product_url u = true) :
    (searchPat1 u.toList || searchPat2 u.toList) = true := by
  rw [is_valid_product_url] at h
  by_cases h1 : (u == "" || !containsSub ("argos.co.uk".toList) u.toList) = true
  · rw [if_pos h1] at h
    cases h
  · rw [if_neg h1] at h
    by_cases h2 : (searchPat1 u.toList || searchPat2 u.toList) = true
    · exact h2
    · rw [if_neg h2] at h
      split at h <;> cases h

theorem collectArgosUrls_split :
    ∀ (l acc : List String),
      ∃ s, collectArgosUrls acc l = acc ++ s ∧
        s.Sublist (l.map cleanUrl) ∧
        ∀ u ∈ s, is_valid_product_url u = true := by
  intro l
  induction l with
  | nil =>
    intro acc
    exact ⟨[], by rw [collectArgosUrls]; simp, List.nil_sublist _, by simp⟩
  | cons r rest ih =>
    intro acc
    rw [collectArgosUrls]
    by_cases hc : (is_valid_product_url (cleanUrl r) && !memb acc (cleanUrl r)) = true
    · rw [if_pos hc]
      obtain ⟨s, hs1, hs2, hs3⟩ := ih (acc ++ [cleanUrl r])
      refine ⟨cleanUrl r :: s, ?_, ?_, ?_⟩
      · rw [hs1]
        simp
      · simpa using List.Sublist.cons₂ (cleanUrl r) hs2
      · intro u hu
        rcases List.mem_cons.mp hu with he | hm
        · subst he
          exact (Bool.and_eq_true ..).mp hc |>.1
        · exact hs3 u hm
    · rw [if_neg hc]
      obtain ⟨s, hs1, hs2, hs3⟩ := ih acc
      refine ⟨s, hs1, ?_, hs3⟩
      simpa using hs2.cons (cleanUrl r)

theorem collectArgosUrls_nodup :
    ∀ (l acc : List String), acc.Nodup → (collectArgosUrls acc l).Nodup := by
  intro l
  induction l with
  | nil =>
    intro acc h
    rw [collectArgosUrls]
    exact h
  | cons r rest ih =>
    intro acc h
    rw [collectArgosUrls]
    by_cases hc : (is_valid_product_url (cleanUrl r) && !memb acc (cleanUrl r)) = true
    · rw [if_pos hc]
      apply ih
      have hnm : cleanUrl r ∉ acc := by
        intro hmem
        have := (memb_iff_mem acc (cleanUrl r)).mpr hmem
        have h2 := (Bool.and_eq_true ..).mp hc |>.2
        rw [this] at h2
        cases h2
      rw [List.nodup_append]
      exact ⟨h, List.nodup_singleton _, by simpa using hnm⟩
    · rw [if_neg hc]
      exact ih acc h

/-- Claim C3, counterexample: a search result whose URL contains the
excluded segment /search/ but also matches the product pattern is stripped
of its query string and accepted as a candidate, so accepted candidates
are not free of excluded path segments. -/
theorem claim_C3_cex :
    collectArgosUrls [] ["https://www.argos.co.uk/search/product/123?tag=x"] =
      ["https://www.argos.co.uk/search/product/123"] ∧
    containsSub ("/search/".toList)
      ("https://www.argos.co.uk/search/product/123".toList) = true := by
  exact ⟨by decide, by decide⟩

/-- Claim C3, amended: every accepted candidate matches one of the two
product-page path patterns, tracking query parameters are stripped and
duplicates removed preserving order; but the exclusion list never
constrains acceptance, because the source checks it only after the
pattern scan has already failed, so an accepted candidate may contain an
excluded path segment. -/
theorem claim_C3 (results : List String) :
    (∀ u ∈ collectArgosUrls [] results,
       is_valid_product_url u = true ∧
       (searchPat1 u.toList || searchPat2 u.toList) = true) ∧
    (collectArgosUrls [] results).Nodup ∧
    (collectArgosUrls [] results).Sublist (results.map cleanUrl) := by
  obtain ⟨s, hs1, hs2, hs3⟩ := collectArgosUrls_split results []
  rw [hs1]
  simp only [List.nil_append]
  refine ⟨?_, ?_, hs2⟩
  · intro u hu
    exact ⟨hs3 u hu, valid_implies_pattern u (hs3 u hu)⟩
  · have := collectArgosUrls_nodup results [] List.nodup_nil
    rw [hs1] at this
    simpa using this

/-! ## Availability-loop lemmas (claim C5) -/

theorem availStep_lastBlockTime (now : ℤ) (p : SearchBlocked × List String) (b : String) :
    (availStep now p b).1.lastBlockTime = p.1.lastBlockTime := by
  rw [availStep]
  (repeat' split) <;> rfl

theorem availStep_acc (now : ℤ) (p : SearchBlocked × List String) (b : String) :
    (availStep now p b).2 = p.2 ∨ (availStep now p b).2 = p.2 ++ [b] := by
  rw [availStep]
  (repeat' split) <;> simp

theorem availStep_flags_other (now : ℤ) (p : SearchBlocked × List String) (b c : String)
    (h : b ≠ c) : alookup (availStep now p b).1.flags c = alookup p.1.flags c := by
  rw [availStep]
  (repeat' split) <;> first
  | rfl
  | exact alookup_aset_ne _ b c false h

theorem availStep_self_cold (now : ℤ) (p : SearchBlocked × List String) (b : String)
    (times : List (String × ℤ)) (t : ℤ)
    (h1 : alookup p.1.flags b = some true) (h2 : p.1.lastBlockTime = some times)
    (h3 : alookup times b = some t) (h4 : now - t < block_cooldown) :
    availStep now p b = p := by
  have h5 : ¬(block_cooldown ≤ now - t) := by omega
  simp [availStep, h1, h2, h3, h5]

theorem availStep_self_warm (now : ℤ) (p : SearchBlocked × List String) (b : String)
    (times : List (String × ℤ)) (t : ℤ)
    (h1 : alookup p.1.flags b = some true) (h2 : p.1.lastBlockTime = some times)
    (h3 : alookup times b = some t) (h4 : block_cooldown ≤ now - t) :
    availStep now p b =
      ({ flags := aset p.1.flags b false, lastBlockTime := p.1.lastBlockTime },
        p.2 ++ [b]) := by
  simp [availStep, h1, h2, h3, h4]

theorem availStep_self_notblocked (now : ℤ) (p : SearchBlocked × List String) (b : String)
    (h1 : alookup p.1.flags b ≠ some true) :
    availStep now p b = (p.1, p.2 ++ [b]) := by
  simp [availStep, h1]

theorem availGo_lastBlockTime (now : ℤ) :
    ∀ (bs : List String) (p : SearchBlocked × List String),
      (availGo now p bs).1.lastBlockTime = p.1.lastBlockTime
  | [], _ => rfl
  | b :: rest, p => by
    rw [availGo, availGo_lastBlockTime now rest, availStep_lastBlockTime]

theorem availGo_acc_mono (now : ℤ) (x : String) :
    ∀ (bs : List String) (p : SearchBlocked × List String),
      x ∈ p.2 → x ∈ (availGo now p bs).2
  | [], _, h => h
  | b :: rest, p, h => by
    rw [availGo]
    apply availGo_acc_mono now x rest
    rcases availStep_acc now p b with ha | ha <;> rw [ha]
    · exact h
    · exact List.mem_append_left _ h

theorem availGo_flag_false_stable (now : ℤ) (b : String) :
    ∀ (bs : List String) (p : SearchBlocked × List String),
      alookup p.1.flags b = some false →
      alookup (availGo now p bs).1.flags b = some false
  | [], _, h => h
  | c :: rest, p, h => by
    rw [availGo]
    apply availGo_flag_false_stable now b rest
    by_cases hcb : c = b
    · subst hcb
      rw [availStep_self_notblocked now p c (by rw [h]; simp)]
      exact h
    · rw [availStep_flags_other now p c b hcb]
      exact h

theorem availGo_not_mem (now : ℤ) (times : List (String × ℤ)) (t : ℤ) (b : String)
    (h3 : alookup times b = some t) (h4 : now - t < block_cooldown) :
    ∀ (bs : List String) (p : SearchBlocked × List String),
      alookup p.1.flags b = some true →
      p.1.lastBlockTime = some times →
      b ∉ p.2 →
      b ∉ (availGo now p bs).2
  | [], _, _, _, h5 => h5
  | c :: rest, p, h1, h2, h5 => by
    rw [availGo]
    by_cases hcb : c = b
    · subst hcb
      rw [availStep_self_cold now p c times t h1 h2 h3 h4]
      exact availGo_not_mem now times t c h3 h4 rest p h1 h2 h5
    · apply availGo_not_mem now times t b h3 h4 rest
      · rw [availStep_flags_other now p c b hcb]
        exact h1
      · rw [availStep_lastBlockTime]
        exact h2
      · rcases availStep_acc now p c with ha | ha <;> rw [ha]
        · exact h5
        · intro hm
          rcases List.mem_append.mp hm with hm2 | hm2
          · exact h5 hm2
          · rw [List.mem_singleton] at hm2
            exact hcb hm2.symm

theorem availGo_mem (now : ℤ) (times : List (String × ℤ)) (t : ℤ) (b : String)
    (h3 : alookup times b = some t) (h4 : block_cooldown ≤ now - t) :
    ∀ (bs : List String) (p : SearchBlocked × List String),
      b ∈ bs →
      alookup p.1.flags b = some true →
      p.1.lastBlockTime = some times →
      b ∈ (availGo now p bs).2 ∧
        alookup (availGo now p bs).1.flags b = some false
  | [], _, hmem, _, _ => absurd hmem (List.not_mem_nil b)
  | c :: rest, p, hmem, h1, h2 => by
    rw [availGo]
    by_cases hcb : c = b
    · subst hcb
      rw [availStep_self_warm now p c times t h1 h2 h3 h4]
      constructor
      · apply availGo_acc_mono
        exact List.mem_append_right _ (List.mem_singleton_self c)
      · apply availGo_flag_false_stable
        exact alookup_aset_self p.1.flags c false
    · have hmem2 : b ∈ rest := by
        rcases List.mem_cons.mp hmem with he | hm
        · exact absurd he.symm hcb
        · exact hm
      apply availGo_mem now times t b h3 h4 rest _ hmem2
      · rw [availStep_flags_other now p c b hcb]
        exact h1
      · rw [availStep_lastBlockTime]
        exact h2

/-- Claim C5: over the configured channels, a blocked channel whose
recorded cooldown has not elapsed never appears in the availability
result, and a blocked channel whose cooldown has elapsed is included with
its blocked flag reset to false as a side effect. -/
theorem claim_C5 (now : ℤ) (sb : SearchBlocked) (b : String)
    (times : List (String × ℤ)) (t : ℤ)
    (hmem : b ∈ search_backends) (hblk : alookup sb.flags b = some true)
    (htimes : sb.lastBlockTime = some times) (ht : alookup times b = some t) :
    (now - t < block_cooldown → b ∉ (available_channels now sb).2) ∧
    (block_cooldown ≤ now - t →
      b ∈ (available_channels now sb).2 ∧
        alookup (available_channels now sb).1.flags b = some false) := by
  constructor
  · intro hc
    exact availGo_not_mem now times t b ht hc search_backends (sb, []) hblk htimes
      (List.not_mem_nil b)
  · intro hc
    exact availGo_mem now times t b ht hc search_backends (sb, []) hmem hblk htimes

/-- Claim C5, closed instantiation: the blocked backend yahoo with an
elapsed cooldown is returned by the availability computation with its
flag reset. -/
theorem claim_C5_witness :
    "yahoo" ∈ search_backends ∧
    alookup wSb5.flags "yahoo" = some true ∧
    wSb5.lastBlockTime = some [("yahoo", 0)] ∧
    alookup [("yahoo", (0 : ℤ))] "yahoo" = some 0 ∧
    block_cooldown ≤ (1800 : ℤ) - 0 ∧
    ("yahoo" ∈ (available_channels 1800 wSb5).2 ∧
      alookup (available_channels 1800 wSb5).1.flags "yahoo" = some false) :=
  ⟨by decide, by decide, rfl, by decide, by decide,
   (claim_C5 1800 wSb5 "yahoo" [("yahoo", 0)] 0 (by decide) (by decide) rfl
     (by decide)).2 (by decide)⟩

/-! ## Resolver-loop lemmas (claim C6) -/

theorem all_blocked_false (sb : SearchBlocked) (b : String) (hmem : b ∈ search_backends)
    (h : alookup sb.flags b ≠ some true) : all_blocked sb = false := by
  rw [all_blocked, Bool.eq_false_iff]
  intro hall
  rw [List.all_eq_true] at hall
  have h2 := hall b hmem
  cases hlk : alookup sb.flags b with
  | none => rw [hlk] at h2; simp at h2
  | some v =>
    cases v with
    | false => rw [hlk] at h2; simp at h2
    | true => exact h hlk

theorem tryBackends_empty (f : String → SearchOutcome) (now : ℤ) (b : String)
    (hb : f b = SearchOutcome.empty) :
    ∀ (pre : List String) (sb : SearchBlocked) (rest : List String),
      (∀ c ∈ pre, f c = SearchOutcome.rateLimited) →
      (tryBackends f now sb (pre ++ b :: rest)).1 = none ∧
      (tryBackends f now sb (pre ++ b :: rest)).2.2 = pre ++ [b] ∧
      alookup (tryBackends f now sb (pre ++ b :: rest)).2.1.flags b = alookup sb.flags b
  | [], sb, rest, _ => by
    simp only [List.nil_append]
    rw [tryBackends, hb]
    exact ⟨rfl, rfl, rfl⟩
  | c :: pre2, sb, rest, hpre => by
    have hc : f c = SearchOutcome.rateLimited := hpre c (List.mem_cons_self c pre2)
    have hcb : c ≠ b := by
      intro he
      rw [he, hb] at hc
      cases hc
    obtain ⟨h1, h2, h3⟩ := tryBackends_empty f now b hb pre2 (recordBlock sb c now) rest
      (fun x hx => hpre x (List.mem_cons_of_mem c hx))
    rcases hT : tryBackends f now (recordBlock sb c now) (pre2 ++ b :: rest) with ⟨u, sb2, q⟩
    rw [hT] at h1 h2 h3
    simp only [List.cons_append]
    rw [tryBackends, hc, hT]
    refine ⟨h1, ?_, ?_⟩
    · show c :: q = (c :: pre2) ++ [b]
      rw [List.cons_append]
      exact congrArg (c :: ·) h2
    · show alookup sb2.flags b = alookup sb.flags b
      rw [h3]
      show alookup (aset sb.flags c true) b = alookup sb.flags b
      exact alookup_aset_ne sb.flags c b true hcb

/-- Claim C6: once one available channel completes its search without a
rate-limit error but yields no accepted URL, the resolver returns no URL
immediately, querying none of the remaining channels, and the batch
driver records the identifier in the exhausted set. -/
theorem claim_C6 (f : String → SearchOutcome) (now : ℤ) (sb : SearchBlocked)
    (pre rest : List String) (b : String) (pid : String) (nf : List String)
    (hpre : ∀ c ∈ pre, f c = SearchOutcome.rateLimited)
    (hb : f b = SearchOutcome.empty)
    (hmem : b ∈ search_backends) (hflag : alookup sb.flags b ≠ some true) :
    (tryBackends f now sb (pre ++ b :: rest)).1 = none ∧
    (tryBackends f now sb (pre ++ b :: rest)).2.2 = pre ++ [b] ∧
    handleNoUrl LookupKind.code (tryBackends f now sb (pre ++ b :: rest)).2.1 now =
      BatchAction.exhaust ∧
    memb (updateNotFound
        (handleNoUrl LookupKind.code (tryBackends f now sb (pre ++ b :: rest)).2.1 now)
        nf pid) pid = true := by
  obtain ⟨h1, h2, h3⟩ := tryBackends_empty f now b hb pre sb rest hpre
  have hflag2 : alookup (tryBackends f now sb (pre ++ b :: rest)).2.1.flags b ≠ some true := by
    rw [h3]
    exact hflag
  have hab : all_blocked (tryBackends f now sb (pre ++ b :: rest)).2.1 = false :=
    all_blocked_false _ b hmem hflag2
  have hh : handleNoUrl LookupKind.code (tryBackends f now sb (pre ++ b :: rest)).2.1 now =
      BatchAction.exhaust := by
    simp [handleNoUrl, hab]
  refine ⟨h1, h2, hh, ?_⟩
  rw [hh]
  exact memb_insertSet_self nf pid

/-- Claim C6, closed instantiation: after google rate-limits,
mullvad_google completes with an empty result; the resolver stops there
(yahoo and yandex are never queried) and the identifier joins the
exhausted set. -/
theorem claim_C6_witness :
    (∀ c ∈ ["google"], wF6 c = SearchOutcome.rateLimited) ∧
    wF6 "mullvad_google" = SearchOutcome.empty ∧
    "mullvad_google" ∈ search_backends ∧
    alookup wSb6.flags "mullvad_google" ≠ some true ∧
    ((tryBackends wF6 0 wSb6 (["google"] ++ "mullvad_google" :: ["yahoo", "yandex"])).1 =
        none ∧
      (tryBackends wF6 0 wSb6
          (["google"] ++ "mullvad_google" :: ["yahoo", "yandex"])).2.2 =
        ["google"] ++ ["mullvad_google"] ∧
      handleNoUrl LookupKind.code
          (tryBackends wF6 0 wSb6
            (["google"] ++ "mullvad_google" :: ["yahoo", "yandex"])).2.1 0 =
        BatchAction.exhaust ∧
      memb (updateNotFound
          (handleNoUrl LookupKind.code
            (tryBackends wF6 0 wSb6
              (["google"] ++ "mullvad_google" :: ["yahoo", "yandex"])).2.1 0)
          [] "5055812226207") "5055812226207" = true) :=
  ⟨by decide, by decide, by decide, by decide,
   claim_C6 wF6 0 wSb6 ["google"] ["yahoo", "yandex"] "mullvad_google" "5055812226207" []
     (by decide) (by decide) (by decide) (by decide)⟩

/-! ## Minimum-wait lemmas (claim C7) -/

theorem minWaitStep_some_le (now : ℤ) (tOpt : Option ℤ) (m : ℤ) :
    ∃ w, minWaitStep now (some m) tOpt = some w ∧ w ≤ m := by
  cases tOpt with
  | none => exact ⟨m, rfl, le_rfl⟩
  | some t =>
    rw [minWaitStep]
    by_cases h : 0 < block_cooldown - (now - t) ∧ block_cooldown - (now - t) < m
    · rw [if_pos h]
      exact ⟨_, rfl, le_of_lt h.2⟩
    · rw [if_neg h]
      exact ⟨m, rfl, le_rfl⟩

theorem minWaitStep_new (now : ℤ) (acc : Option ℤ) (t : ℤ)
    (hpos : 0 < block_cooldown - (now - t)) :
    ∃ w, minWaitStep now acc (some t) = some w ∧ w ≤ block_cooldown - (now - t) := by
  cases acc with
  | none =>
    rw [minWaitStep, if_pos hpos]
    exact ⟨_, rfl, le_rfl⟩
  | some m =>
    rw [minWaitStep]
    by_cases h : block_cooldown - (now - t) < m
    · rw [if_pos ⟨hpos, h⟩]
      exact ⟨_, rfl, le_rfl⟩
    · rw [if_neg (fun hand => h hand.2)]
      exact ⟨m, rfl, by omega⟩

theorem minWaitAux_some_le (now : ℤ) (times : List (String × ℤ)) :
    ∀ (bs : List String) (m : ℤ),
      ∃ w, minWaitAux now times (some m) bs = some w ∧ w ≤ m
  | [], m => ⟨m, rfl, le_rfl⟩
  | b :: rest, m => by
    rw [minWaitAux]
    obtain ⟨w1, hw1, hle1⟩ := minWaitStep_some_le now (alookup times b) m
    rw [hw1]
    obtain ⟨w2, hw2, hle2⟩ := minWaitAux_some_le now times rest w1
    exact ⟨w2, hw2, le_trans hle2 hle1⟩

theorem minWaitAux_mem_le (now : ℤ) (times : List (String × ℤ)) (b : String) (t : ℤ)
    (hbt : alookup times b = some t) (hpos : 0 < block_cooldown - (now - t)) :
    ∀ (bs : List String) (acc : Option ℤ), b ∈ bs →
      ∃ w, minWaitAux now times acc bs = some w ∧ w ≤ block_cooldown - (now - t)
  | [], _, hmem => absurd hmem (List.not_mem_nil b)
  | c :: rest, acc, hmem => by
    rw [minWaitAux]
    by_cases hcb : c = b
    · subst hcb
      rw [hbt]
      obtain ⟨w1, hw1, hle1⟩ := minWaitStep_new now acc t hpos
      rw [hw1]
      obtain ⟨w2, hw2, hle2⟩ := minWaitAux_some_le now times rest w1
      exact ⟨w2, hw2, le_trans hle2 hle1⟩
    · have hmem2 : b ∈ rest := by
        rcases List.mem_cons.mp hmem with he | hm
        · exact absurd he.symm hcb
        · exact hm
      exact minWaitAux_mem_le now times b t hbt hpos rest
        (minWaitStep now acc (alookup times c)) hmem2

/-- Claim C7: under global exhaustion a CodeLookup identifier is never added
to the exhausted set; the minimum remaining positive cooldown over the
recorded block times bounds the computed wait, a computed wait above 300
seconds terminates the batch loop, and ModelLookup handling records the
identifier as not found regardless of the blocked channels. -/
theorem claim_C7 (sb : SearchBlocked) (now : ℤ) (h : all_blocked sb = true) :
    (∀ (nf : List String) (pid : String),
       memb nf pid = false →
       memb (updateNotFound (handleNoUrl LookupKind.code sb now) nf pid) pid = false) ∧
    (∀ w, minWait sb now = some w → 300 < w →
       handleNoUrl LookupKind.code sb now = BatchAction.halt) ∧
    (∀ (b : String) (t : ℤ), b ∈ search_backends →
       alookup (sb.lastBlockTime.getD []) b = some t →
       0 < block_cooldown - (now - t) →
       ∃ w, minWait sb now = some w ∧ w ≤ block_cooldown - (now - t)) ∧
    handleNoUrl LookupKind.model sb now = BatchAction.exhaust := by
  have hcode : handleNoUrl LookupKind.code sb now =
      (match minWait sb now with
       | some w => if 300 < w then BatchAction.halt else BatchAction.skipId
       | none => BatchAction.skipId) := by
    simp [handleNoUrl, h]
  have hne : handleNoUrl LookupKind.code sb now ≠ BatchAction.exhaust := by
    rw [hcode]
    cases hA : minWait sb now with
    | none => simp
    | some w => by_cases h3 : 300 < w <;> simp [h3]
  refine ⟨?_, ?_, ?_, rfl⟩
  · intro nf pid hnf
    cases hA2 : handleNoUrl LookupKind.code sb now with
    | exhaust => exact absurd hA2 hne
    | halt => exact hnf
    | skipId => exact hnf
  · intro w hw h300
    rw [hcode, hw]
    simp [h300]
  · intro b t hmem hbt hpos
    exact minWaitAux_mem_le now (sb.lastBlockTime.getD []) b t hbt hpos
      search_backends none hmem

/-- Claim C7, closed instantiation: with all four backends blocked shortly
after the block times, the minimum wait is 1700 seconds, the batch halts,
nothing joins the exhausted set, and a model lookup still records its
identifier as not found. -/
theorem claim_C7_witness :
    all_blocked wSb7 = true ∧
    memb (updateNotFound (handleNoUrl LookupKind.code wSb7 100) [] "X") "X" = false ∧
    handleNoUrl LookupKind.code wSb7 100 = BatchAction.halt ∧
    handleNoUrl LookupKind.model wSb7 100 = BatchAction.exhaust :=
  ⟨by decide,
   (claim_C7 wSb7 100 (by decide)).1 [] "X" (by decide),
   (claim_C7 wSb7 100 (by decide)).2.1 1700 (by decide) (by decide),
   (claim_C7 wSb7 100 (by decide)).2.2.2⟩

/-! ## Persistence round-trip lemmas (claim C9) -/

theorem alookup_map_isSome (bs : List String) (k : String) :
    (alookup (bs.map (fun b => (b, false))) k).isSome = true ↔ k ∈ bs := by
  induction bs with
  | nil => simp [alookup]
  | cons c rest ih =>
    by_cases h : c = k
    · subst h
      simp [alookup]
    · have h2 : ¬(k = c) := fun he => h he.symm
      simp [alookup, h, h2, ih]

theorem loadFlags_not_key (b : String) :
    ∀ (entries fl : List (String × Bool)),
      alookup entries b = none →
      alookup (loadFlags fl entries) b = alookup fl b
  | [], _, _ => rfl
  | (k, v) :: t, fl, h => by
    have hk : ¬(k = b) := by
      intro he
      rw [alookup, if_pos he] at h
      cases h
    have ht : alookup t b = none := by
      rw [alookup, if_neg hk] at h
      exact h
    rw [loadFlags, loadFlags_not_key b t _ ht]
    by_cases hc : (alookup initFlags k).isSome = true
    · rw [if_pos hc]
      exact alookup_aset_ne fl k b v hk
    · rw [if_neg hc]

theorem loadFlags_key (b : String) (hb : b ∈ search_backends) :
    ∀ (entries fl : List (String × Bool)) (v : Bool),
      (entries.map Prod.fst).Nodup →
      alookup entries b = some v →
      alookup (loadFlags fl entries) b = some v
  | [], _, _, _, h => by cases h
  | (k, w) :: t, fl, v, hnd, h => by
    rw [List.map_cons, List.nodup_cons] at hnd
    rw [loadFlags]
    by_cases hk : k = b
    · subst hk
      have hv : w = v := by
        rw [alookup, if_pos rfl] at h
        injection h
      subst hv
      have hcond : (alookup initFlags k).isSome = true := by
        rw [initFlags]
        exact (alookup_map_isSome search_backends k).mpr hb
      rw [if_pos hcond]
      have htn : alookup t k = none := alookup_eq_none t k hnd.1
      rw [loadFlags_not_key k t _ htn]
      exact alookup_aset_self fl k w
    · have ht : alookup t b = some v := by
        rw [alookup, if_neg hk] at h
        exact h
      exact loadFlags_key b hb t _ v hnd.2 ht

/-- Claim C9: saving the four artifacts and reloading them preserves the
membership of the resolved, exhausted and visited-URL sets, and for every
configured channel the blocked flag and the recorded block timestamp. -/
theorem claim_C9 (st : RunState)
    (hnd : (st.blocked.flags.map Prod.fst).Nodup)
    (hcov : ∀ b ∈ search_backends, (alookup st.blocked.flags b).isSome = true) :
    (∀ x, memb (load_persistent_data (save_persistent_data st)).successful x =
       memb st.successful x) ∧
    (∀ x, memb (load_persistent_data (save_persistent_data st)).notFound x =
       memb st.notFound x) ∧
    (∀ x, memb (load_persistent_data (save_persistent_data st)).accessed x =
       memb st.accessed x) ∧
    (∀ b ∈ search_backends,
       alookup (load_persistent_data (save_persistent_data st)).blocked.flags b =
         alookup st.blocked.flags b) ∧
    (load_persistent_data (save_persistent_data st)).blocked.lastBlockTime =
      st.blocked.lastBlockTime := by
  refine ⟨fun _ => rfl, fun _ => rfl, fun _ => rfl, ?_, rfl⟩
  intro b hb
  have hs := hcov b hb
  cases hlk : alookup st.blocked.flags b with
  | none => rw [hlk] at hs; cases hs
  | some v =>
    show alookup (loadFlags initFlags st.blocked.flags) b = some v
    exact loadFlags_key b hb st.blocked.flags initFlags v hnd hlk

/-- Claim C9, closed instantiation on a concrete run state. -/
theorem claim_C9_witness :
    (wSt9.blocked.flags.map Prod.fst).Nodup ∧
    (∀ b ∈ search_backends, (alookup wSt9.blocked.flags b).isSome = true) ∧
    memb (load_persistent_data (save_persistent_data wSt9)).successful "5028965808078" =
      memb wSt9.successful "5028965808078" ∧
    alookup (load_persistent_data (save_persistent_data wSt9)).blocked.flags "google" =
      alookup wSt9.blocked.flags "google" ∧
    (load_persistent_data (save_persistent_data wSt9)).blocked.lastBlockTime =
      wSt9.blocked.lastBlockTime :=
  ⟨by decide, by decide,
   (claim_C9 wSt9 (by decide) (by decide)).1 "5028965808078",
   (claim_C9 wSt9 (by decide) (by decide)).2.2.2.1 "google" (by decide),
   (claim_C9 wSt9 (by decide) (by decide)).2.2.2.2⟩

end ArgosScraper
